import Mathlib

/-!
Shallow embedding of the `summa` persistence subsystem:
the sled-backed record store (`src/storage.rs`), the `Summary` data type
(`src/summary.rs`), the tantivy-backed search index (`src/search.rs`) and the
query-resolver fallback policy (`src/main.rs`).

Modelling conventions:
- serde_json values are modelled by an inductive `Json` type; serialization of
  a struct is the struct-to-Json projection derived by serde, and the byte
  layer (Json value to UTF-8 text and back) is taken as lossless, which is
  serde_json's contract.  A corrupt stored value is a `Json` value that does
  not decode back to the struct.
- `chrono::DateTime<Utc>` timestamps are modelled as `Nat` (comparison and
  serialization are order- and equality-faithful).
- sled's on-disk tree is modelled as an association list of
  (key, serialized value) pairs kept in ascending key order, which is sled's
  iteration order; `insert` overwrites the value of an existing key in place.
- the `DefaultHasher`-based key derivation `Storage::hash_url` is a pure
  function of the url string; it is taken as a parameter `h` of the storage
  operations, since the claims depend only on its determinism and on
  (in)equality of derived keys, never on concrete hash values.
-/

namespace Summa

/-- Model of a serde_json value (the subset that can appear in this program's
records: strings, naturals for timestamps, arrays, objects). -/
inductive Json where
  | str : String → Json
  | num : Nat → Json
  | arr : List Json → Json
  | obj : List (String × Json) → Json

/-- Projection of a Json value to a string, as serde expects for a `String`
field. -/
def Json.getStr : Json → Option String
  | .str s => some s
  | _ => none

/-- Projection of a Json value to a natural, as serde expects for the
timestamp field. -/
def Json.getNat : Json → Option Nat
  | .num n => some n
  | _ => none

/-- Decode a list of Json values all of which must be strings
(serde's decoding of `Vec<String>`). -/
def getStrList : List Json → Option (List String)
  | [] => some []
  | j :: rest =>
    match j.getStr with
    | some s => (getStrList rest).map (s :: ·)
    | none => none

/-- Projection of a Json value to a list of strings (a `Vec<String>` field). -/
def Json.getStrArr : Json → Option (List String)
  | .arr xs => getStrList xs
  | _ => none

/-- Field lookup in a Json object (serde reads each named field). -/
def Json.field (j : Json) (k : String) : Option Json :=
  match j with
  | .obj kvs => kvs.lookup k
  | _ => none

/-- The `Summary` struct of `src/summary.rs`. -/
structure Summary where
  title : String
  conclusion : String
  key_points : List String
  entities : List String
  action_items : List String
deriving DecidableEq

/-- `Summary::is_empty` of `src/summary.rs`: true when the conclusion and the
three lists are all empty. -/
def Summary.isEmpty (s : Summary) : Bool :=
  s.conclusion.isEmpty && s.key_points.isEmpty && s.entities.isEmpty
    && s.action_items.isEmpty

/-- serde serialization of `Summary` (derived `Serialize`). -/
def Summary.toJson (s : Summary) : Json :=
  .obj [("title", .str s.title),
        ("conclusion", .str s.conclusion),
        ("key_points", .arr (s.key_points.map .str)),
        ("entities", .arr (s.entities.map .str)),
        ("action_items", .arr (s.action_items.map .str))]

/-- serde deserialization of `Summary` (derived `Deserialize`): every field
must be present with the right shape. -/
def Summary.fromJson (j : Json) : Option Summary := do
  let title ← (j.field "title").bind Json.getStr
  let conclusion ← (j.field "conclusion").bind Json.getStr
  let key_points ← (j.field "key_points").bind Json.getStrArr
  let entities ← (j.field "entities").bind Json.getStrArr
  let action_items ← (j.field "action_items").bind Json.getStrArr
  pure ⟨title, conclusion, key_points, entities, action_items⟩

/-- The `StoredSummary` struct of `src/storage.rs`: url, creation timestamp,
summary. -/
structure StoredSummary where
  url : String
  created_at : Nat
  summary : Summary
deriving DecidableEq

/-- serde serialization of `StoredSummary`. -/
def StoredSummary.toJson (s : StoredSummary) : Json :=
  .obj [("url", .str s.url),
        ("created_at", .num s.created_at),
        ("summary", s.summary.toJson)]

/-- serde deserialization of `StoredSummary`. -/
def StoredSummary.fromJson (j : Json) : Option StoredSummary := do
  let url ← (j.field "url").bind Json.getStr
  let created_at ← (j.field "created_at").bind Json.getNat
  let summary ← (j.field "summary").bind Summary.fromJson
  pure ⟨url, created_at, summary⟩

/-- The `StorageError` enum of `src/storage.rs`. -/
inductive StorageError where
  | dbError
  | serializationError
  | notFound : String → StorageError
deriving DecidableEq

/-- The sled tree of `Storage`: an association list of (key, value) pairs in
ascending key order (sled's iteration order). -/
structure Storage where
  entries : List (String × Json)

/-- sled `insert`: overwrite the value of an existing key in place, or place a
new key at its sorted position. -/
def insertEntry (es : List (String × Json)) (k : String) (v : Json) :
    List (String × Json) :=
  match es with
  | [] => [(k, v)]
  | (k₁, v₁) :: rest =>
    if k < k₁ then (k, v) :: (k₁, v₁) :: rest
    else if k = k₁ then (k, v) :: rest
    else (k₁, v₁) :: insertEntry rest k v

/-- `Storage::store` of `src/storage.rs`: hash the url, build a
`StoredSummary` stamped with the current time, serialize it and insert it
under the hashed key.  `h` is the key-derivation function `hash_url`; `now`
is the value of `Utc::now()` at the call. -/
def Storage.store (h : String → String) (st : Storage) (url : String)
    (s : Summary) (now : Nat) : Storage :=
  ⟨insertEntry st.entries (h url) (StoredSummary.toJson ⟨url, now, s⟩)⟩

/-- `Storage::get` of `src/storage.rs`: look up the hashed key; deserialize on
a hit (a decode failure is a serialization error), `none` on a miss. -/
def Storage.get (h : String → String) (st : Storage) (url : String) :
    Except StorageError (Option StoredSummary) :=
  match st.entries.lookup (h url) with
  | some v =>
    match StoredSummary.fromJson v with
    | some stored => .ok (some stored)
    | none => .error .serializationError
  | none => .ok none

/-- Decode every value in iteration order, failing on the first value that
does not deserialize (the loop body of `Storage::list_all`). -/
def decodeAll : List (String × Json) → Except StorageError (List StoredSummary)
  | [] => .ok []
  | (_, v) :: rest =>
    match StoredSummary.fromJson v with
    | none => .error .serializationError
    | some s =>
      match decodeAll rest with
      | .ok l => .ok (s :: l)
      | .error e => .error e

/-- The comparator of `Storage::list_all`'s sort:
`|a, b| b.created_at.cmp(&a.created_at)`, i.e. descending creation time. -/
def descLe (a b : StoredSummary) : Bool :=
  decide (b.created_at ≤ a.created_at)

/-- `Storage::list_all` of `src/storage.rs`: decode every stored value, then
stable-sort by creation time descending (`sort_by` is stable in Rust). -/
def Storage.listAll (st : Storage) : Except StorageError (List StoredSummary) :=
  match decodeAll st.entries with
  | .ok l => .ok (l.mergeSort descLe)
  | .error e => .error e

/-- `Storage::delete` of `src/storage.rs`: remove the hashed key and report
whether it was present. -/
def Storage.delete (h : String → String) (st : Storage) (url : String) :
    Storage × Bool :=
  (⟨st.entries.filter (fun kv => kv.1 != h url)⟩,
   (st.entries.lookup (h url)).isSome)

/-- `Storage::count` of `src/storage.rs`: sled `len`. -/
def Storage.count (st : Storage) : Nat :=
  st.entries.length

/-- Rust `str::to_lowercase` (and tantivy's `LowerCaser`), modelled as
character-wise lowercasing. -/
def lowerStr (s : String) : String :=
  String.mk (s.toList.map Char.toLower)

/-- Rust `str::contains(needle)`: `needle` occurs as a contiguous substring. -/
def strContains (hay needle : String) : Bool :=
  hay.toList.tails.any (fun suf => needle.toList.isPrefixOf suf)

/-- The filter closure of `simple_search` in `src/main.rs`: the lowercased
query occurs in the lowercased title, conclusion, some key point or some
entity.  (`action_items` is not consulted.) -/
def summaryMatches (s : Summary) (qLower : String) : Bool :=
  strContains (lowerStr s.title) qLower
    || strContains (lowerStr s.conclusion) qLower
    || s.key_points.any (fun p => strContains (lowerStr p) qLower)
    || s.entities.any (fun e => strContains (lowerStr e) qLower)

/-- `simple_search` of `src/main.rs`: lowercase the query, fetch all records
via `list_all`, keep those matched by `summaryMatches`, return their urls. -/
def simpleSearch (st : Storage) (q : String) :
    Except StorageError (List String) :=
  match st.listAll with
  | .ok l =>
    .ok ((l.filter (fun stored => summaryMatches stored.summary (lowerStr q))).map
      (fun stored => stored.url))
  | .error e => .error e

/-- The `SearchError` enum of `src/search.rs`. -/
inductive SearchError where
  | indexError
  | queryError
  | ioError
deriving DecidableEq

/-- The query-resolution policy of the `Search` command in `src/main.rs`.
`idx` is the outcome of the search-index path: `none` when
`SearchIndex::open` failed, `some (.error e)` when `SearchIndex::search`
failed, `some (.ok urls)` when it returned `urls`.  The code returns the
index result only when it is `Ok` and non-empty; every other outcome falls
back to `simple_search`. -/
def resolveQuery (st : Storage) (q : String)
    (idx : Option (Except SearchError (List String))) :
    Except StorageError (List String) :=
  match idx with
  | some (.ok urls) => if urls.isEmpty then simpleSearch st q else .ok urls
  | some (.error _) => simpleSearch st q
  | none => simpleSearch st q

/-!
Model of the tantivy index manipulated by `src/search.rs`, at the level of
tantivy's documented semantics (tantivy 0.22, the version implied by
`ReloadPolicy::OnCommitWithDelay` and `TantivyDocument`):
- every field of the schema built in `SearchIndex::open` is declared `TEXT`,
  so at indexing time its value is run through the default analyzer — the
  simple tokenizer (split on non-alphanumeric characters, drop empty tokens)
  followed by lowercasing — and the resulting tokens are what the inverted
  index records for the document (the long-token filter is omitted here: it
  only drops tokens longer than 40 bytes, which never arises below);
- `IndexWriter::delete_term(t)` deletes exactly the documents whose inverted
  index for `t`'s field contains the token `t` verbatim: the raw text handed
  to `Term::from_field_text` is not analyzed;
- a search returns the stored `url` field of every document matching the
  query (a disjunction over the analyzed query tokens against the four
  default fields of the `QueryParser`), up to the limit; relevance ordering
  is abstracted away, only membership and multiplicity are modelled.
-/

/-- Split a lowercased character stream on non-alphanumeric characters,
accumulating the current token in `acc` (reversed). -/
def splitTokens : List Char → List Char → List (List Char)
  | [], acc => if acc.isEmpty then [] else [acc.reverse]
  | c :: rest, acc =>
    if c.isAlphanum then splitTokens rest (c :: acc)
    else if acc.isEmpty then splitTokens rest []
    else acc.reverse :: splitTokens rest []

/-- tantivy's default analyzer: lowercase, split on non-alphanumeric. -/
def defaultTokenize (s : String) : List String :=
  (splitTokens (lowerStr s).toList []).map (fun cs => String.mk cs)

/-- One tantivy document as built by `SearchIndex::index_summary`: the stored
raw `url` plus the analyzed token lists of each `TEXT` field. -/
structure IndexDoc where
  urlStored : String
  urlTokens : List String
  titleTokens : List String
  conclusionTokens : List String
  keyPointsTokens : List String
  entitiesTokens : List String
  actionItemsTokens : List String
deriving DecidableEq

/-- The document built by the `doc!` block of `SearchIndex::index_summary`:
list fields are space-joined before analysis. -/
def mkIndexDoc (url : String) (s : Summary) : IndexDoc :=
  { urlStored := url
    urlTokens := defaultTokenize url
    titleTokens := defaultTokenize s.title
    conclusionTokens := defaultTokenize s.conclusion
    keyPointsTokens := defaultTokenize (String.intercalate " " s.key_points)
    entitiesTokens := defaultTokenize (String.intercalate " " s.entities)
    actionItemsTokens := defaultTokenize (String.intercalate " " s.action_items) }

/-- The searchable state of the tantivy index: its committed documents. -/
structure SearchIndexState where
  docs : List IndexDoc

/-- `SearchIndex::index_summary` of `src/search.rs`:
`delete_term(Term::from_field_text(url_field, url))` — which removes the
documents whose analyzed `url` field contains the raw string `url` as a
token — then add the new document and commit. -/
def indexSummary (idx : SearchIndexState) (url : String) (s : Summary) :
    SearchIndexState :=
  ⟨(idx.docs.filter (fun d => !(d.urlTokens.contains url))) ++ [mkIndexDoc url s]⟩

/-- Whether a document matches a free-text query: some analyzed query token
occurs in one of the four default query fields of `SearchIndex::search`
(title, conclusion, key_points, entities). -/
def docMatches (d : IndexDoc) (qTokens : List String) : Bool :=
  qTokens.any (fun t =>
    d.titleTokens.contains t || d.conclusionTokens.contains t
      || d.keyPointsTokens.contains t || d.entitiesTokens.contains t)

/-- `SearchIndex::search` of `src/search.rs` on a successfully parsed query:
the stored urls of the matching documents, up to `limit` (relevance order
abstracted). -/
def searchModel (idx : SearchIndexState) (q : String) (limit : Nat) :
    List String :=
  ((idx.docs.filter (fun d => docMatches d (defaultTokenize q))).map
    (fun d => d.urlStored)).take limit

/-! ### Serialization round-trip -/

theorem getStrList_map (xs : List String) :
    getStrList (xs.map Json.str) = some xs := by
  induction xs with
  | nil => rfl
  | cons x xs ih => simp [getStrList, Json.getStr, ih]

theorem summary_fromJson_toJson (s : Summary) :
    Summary.fromJson s.toJson = some s := by
  simp [Summary.fromJson, Summary.toJson, Json.field, List.lookup,
    Json.getStr, Json.getStrArr, getStrList_map]

theorem storedSummary_fromJson_toJson (s : StoredSummary) :
    StoredSummary.fromJson s.toJson = some s := by
  simp [StoredSummary.fromJson, StoredSummary.toJson, Json.field, List.lookup,
    Json.getStr, Json.getNat, summary_fromJson_toJson]

/-! ### Association-list lemmas for the sled model -/

theorem lookup_insertEntry (es : List (String × Json)) (k : String) (v : Json) :
    (insertEntry es k v).lookup k = some v := by
  induction es with
  | nil => simp [insertEntry, List.lookup]
  | cons kv rest ih =>
    obtain ⟨k₁, v₁⟩ := kv
    simp only [insertEntry]
    split
    · simp [List.lookup]
    · split
      · simp [List.lookup]
      · rename_i heq
        have hne : (k == k₁) = false := by
          simpa using heq
        simp [List.lookup, hne, ih]

theorem insertEntry_insertEntry (es : List (String × Json)) (k : String)
    (v₁ v₂ : Json) :
    insertEntry (insertEntry es k v₁) k v₂ = insertEntry es k v₂ := by
  induction es with
  | nil => simp [insertEntry, String.lt_irrefl]
  | cons kv rest ih =>
    obtain ⟨k₁, w⟩ := kv
    by_cases hlt : k < k₁
    · simp [insertEntry, hlt, String.lt_irrefl]
    · by_cases heq : k = k₁
      · simp [insertEntry, hlt, heq, String.lt_irrefl]
      · simp [insertEntry, hlt, heq, ih]

theorem length_insertEntry (es : List (String × Json)) (k : String)
    (v v' : Json) :
    (insertEntry es k v).length = (insertEntry es k v').length := by
  induction es with
  | nil => rfl
  | cons kv rest ih =>
    obtain ⟨k₁, w⟩ := kv
    by_cases hlt : k < k₁
    · simp [insertEntry, hlt]
    · by_cases heq : k = k₁
      · simp [insertEntry, hlt, heq]
      · simp [insertEntry, hlt, heq, ih]

theorem mem_insertEntry {x : String × Json} {es : List (String × Json)}
    {k : String} {v : Json} (hx : x ∈ insertEntry es k v) :
    x = (k, v) ∨ x ∈ es := by
  induction es with
  | nil => simpa [insertEntry] using hx
  | cons kv rest ih =>
    obtain ⟨k₁, w⟩ := kv
    by_cases hlt : k < k₁
    · simp only [insertEntry, if_pos hlt, List.mem_cons] at hx
      rcases hx with h | h | h
      · exact Or.inl h
      · exact Or.inr (by simp [h])
      · exact Or.inr (List.mem_cons_of_mem _ h)
    · by_cases heq : k = k₁
      · simp only [insertEntry, if_neg hlt, if_pos heq, List.mem_cons] at hx
        rcases hx with h | h
        · exact Or.inl h
        · exact Or.inr (List.mem_cons_of_mem _ h)
      · simp only [insertEntry, if_neg hlt, if_neg heq, List.mem_cons] at hx
        rcases hx with h | h
        · exact Or.inr (by simp [h])
        · rcases ih h with h' | h'
          · exact Or.inl h'
          · exact Or.inr (List.mem_cons_of_mem _ h')

theorem self_mem_insertEntry (es : List (String × Json)) (k : String)
    (v : Json) : (k, v) ∈ insertEntry es k v := by
  induction es with
  | nil => simp [insertEntry]
  | cons kv rest ih =>
    obtain ⟨k₁, w⟩ := kv
    by_cases hlt : k < k₁
    · simp [insertEntry, hlt]
    · by_cases heq : k = k₁
      · simp [insertEntry, hlt, heq]
      · simp only [insertEntry, if_neg hlt, if_neg heq]
        exact List.mem_cons_of_mem _ ih

theorem lookup_filter_ne (es : List (String × Json)) (k : String) :
    (es.filter (fun kv => kv.1 != k)).lookup k = none := by
  induction es with
  | nil => rfl
  | cons kv rest ih =>
    by_cases h : kv.1 = k
    · simp [List.filter_cons, h, ih]
    · have hne : (kv.1 != k) = true := by simpa using h
      have hne' : (k == kv.1) = false := by
        simpa using fun he => h he.symm
      simp [List.filter_cons, hne, List.lookup, hne', ih]

theorem filter_ne_of_lookup_none {es : List (String × Json)} {k : String}
    (h : es.lookup k = none) :
    es.filter (fun kv => kv.1 != k) = es := by
  induction es with
  | nil => rfl
  | cons kv rest ih =>
    rw [List.lookup] at h
    by_cases he : k = kv.1
    · simp [he] at h
    · have hne : (k == kv.1) = false := by simpa using he
      rw [hne] at h
      simp only [cond_false] at h
      have : (kv.1 != k) = true := by
        simpa using fun h' => he h'.symm
      simp [List.filter_cons, this, ih h]

theorem lookup_eq_none_of_not_mem {es : List (String × Json)} {k : String}
    (h : k ∉ es.map Prod.fst) : es.lookup k = none := by
  induction es with
  | nil => rfl
  | cons kv rest ih =>
    simp only [List.map_cons, List.mem_cons, not_or] at h
    have : (k == kv.1) = false := by simpa using h.1
    simp [List.lookup, this, ih h.2]

/-! ### decodeAll lemmas -/

theorem decodeAll_length {es : List (String × Json)}
    {l : List StoredSummary} (h : decodeAll es = .ok l) :
    l.length = es.length := by
  induction es generalizing l with
  | nil =>
    simp only [decodeAll] at h
    cases h
    rfl
  | cons kv rest ih =>
    obtain ⟨k₁, v₁⟩ := kv
    simp only [decodeAll] at h
    cases hd : StoredSummary.fromJson v₁ with
    | none => rw [hd] at h; cases h
    | some s =>
      rw [hd] at h
      cases hr : decodeAll rest with
      | error e => rw [hr] at h; cases h
      | ok l' =>
        rw [hr] at h
        cases h
        simp [ih hr]

theorem decodeAll_error_of_mem {es : List (String × Json)}
    {kv : String × Json} (hmem : kv ∈ es)
    (hbad : StoredSummary.fromJson kv.2 = none) :
    decodeAll es = .error .serializationError := by
  induction es with
  | nil => cases hmem
  | cons kv₁ rest ih =>
    rcases List.mem_cons.mp hmem with h | h
    · subst h
      obtain ⟨k₁, v₁⟩ := kv
      simp only [decodeAll]
      rw [hbad]
    · obtain ⟨k₁, v₁⟩ := kv₁
      simp only [decodeAll]
      cases hd : StoredSummary.fromJson v₁ with
      | none => rfl
      | some s => rw [ih h]

theorem decodeAll_mem {es : List (String × Json)} {l : List StoredSummary}
    (h : decodeAll es = .ok l) {x : StoredSummary} (hx : x ∈ l) :
    ∃ kv ∈ es, StoredSummary.fromJson kv.2 = some x := by
  induction es generalizing l with
  | nil =>
    simp only [decodeAll] at h
    cases h
    cases hx
  | cons kv rest ih =>
    obtain ⟨k₁, v₁⟩ := kv
    simp only [decodeAll] at h
    cases hd : StoredSummary.fromJson v₁ with
    | none => rw [hd] at h; cases h
    | some s =>
      rw [hd] at h
      cases hr : decodeAll rest with
      | error e => rw [hr] at h; cases h
      | ok l' =>
        rw [hr] at h
        cases h
        rcases List.mem_cons.mp hx with h' | h'
        · exact ⟨(k₁, v₁), List.mem_cons_self _ _, by rw [hd, h']⟩
        · rcases ih hr h' with ⟨kv', hkv', hdec⟩
          exact ⟨kv', List.mem_cons_of_mem _ hkv', hdec⟩

theorem mem_decodeAll {es : List (String × Json)} {l : List StoredSummary}
    (h : decodeAll es = .ok l) {kv : String × Json} (hmem : kv ∈ es)
    {s : StoredSummary} (hs : StoredSummary.fromJson kv.2 = some s) :
    s ∈ l := by
  induction es generalizing l with
  | nil => cases hmem
  | cons kv₁ rest ih =>
    obtain ⟨k₁, v₁⟩ := kv₁
    simp only [decodeAll] at h
    cases hd : StoredSummary.fromJson v₁ with
    | none => rw [hd] at h; cases h
    | some s₁ =>
      rw [hd] at h
      cases hr : decodeAll rest with
      | error e => rw [hr] at h; cases h
      | ok l' =>
        rw [hr] at h
        cases h
        rcases List.mem_cons.mp hmem with h' | h'
        · subst h'
          rw [hs] at hd
          cases hd
          exact List.mem_cons_self _ _
        · exact List.mem_cons_of_mem _ (ih hr h')

theorem decodeAll_isOk {es : List (String × Json)}
    (hdec : ∀ kv ∈ es, (StoredSummary.fromJson kv.2).isSome) :
    ∃ l, decodeAll es = .ok l := by
  induction es with
  | nil => exact ⟨[], rfl⟩
  | cons kv rest ih =>
    obtain ⟨k₁, v₁⟩ := kv
    have h₁ := hdec (k₁, v₁) (List.mem_cons_self _ _)
    rcases Option.isSome_iff_exists.mp h₁ with ⟨s, hs⟩
    rcases ih (fun kv h => hdec kv (List.mem_cons_of_mem _ h)) with ⟨l, hl⟩
    refine ⟨s :: l, ?_⟩
    simp only [decodeAll]
    rw [hs, hl]

/-! ### Sorting lemmas -/

theorem descLe_trans (a b c : StoredSummary) :
    descLe a b → descLe b c → descLe a c := by
  simp only [descLe, decide_eq_true_eq]
  omega

theorem descLe_total (a b : StoredSummary) :
    descLe a b || descLe b a := by
  simp only [descLe, Bool.or_eq_true, decide_eq_true_eq]
  omega

theorem pairwise_mergeSort_descLe (l : List StoredSummary) :
    (l.mergeSort descLe).Pairwise
      (fun a b => b.created_at ≤ a.created_at) := by
  have h := List.sorted_mergeSort descLe_trans descLe_total l
  exact h.imp (by simp [descLe])

theorem filter_created_at_mergeSort (l : List StoredSummary) (t : Nat) :
    (l.mergeSort descLe).filter (fun s => s.created_at == t)
      = l.filter (fun s => s.created_at == t) := by
  have hperm : List.Perm (l.mergeSort descLe) l := List.mergeSort_perm l descLe
  have hpw : (l.filter (fun s => s.created_at == t)).Pairwise
      (fun a b => descLe a b = true) := by
    apply List.pairwise_of_forall_mem_list
    intro a ha b hb
    have ha' : a.created_at = t := by
      simpa using (List.mem_filter.mp ha).2
    have hb' : b.created_at = t := by
      simpa using (List.mem_filter.mp hb).2
    simp [descLe, ha', hb']
  have hsub : List.Sublist (l.filter (fun s => s.created_at == t))
      (l.mergeSort descLe) :=
    List.sublist_mergeSort (fun a b c => descLe_trans a b c) descLe_total
      hpw (List.filter_sublist l)
  have hsub2 : List.Sublist (l.filter (fun s => s.created_at == t))
      ((l.mergeSort descLe).filter (fun s => s.created_at == t)) := by
    have := hsub.filter (fun s => s.created_at == t)
    simpa [List.filter_filter] using this
  have hlen : (l.filter (fun s => s.created_at == t)).length
      = ((l.mergeSort descLe).filter (fun s => s.created_at == t)).length :=
    ((hperm.filter _).length_eq).symm
  exact (hsub2.eq_of_length hlen).symm

theorem get_store_eq (h : String → String) (st : Storage) (u : String)
    (r : Summary) (t : Nat) :
    Storage.get h (Storage.store h st u r t) u = .ok (some ⟨u, t, r⟩) := by
  simp [Storage.get, Storage.store, lookup_insertEntry,
    storedSummary_fromJson_toJson]

theorem listAll_ok_cases {st : Storage} {l : List StoredSummary}
    (hl : st.listAll = .ok l) :
    ∃ l₀, decodeAll st.entries = .ok l₀ ∧ l = l₀.mergeSort descLe := by
  unfold Storage.listAll at hl
  cases hd : decodeAll st.entries with
  | ok l₀ =>
    rw [hd] at hl
    exact ⟨l₀, rfl, by cases hl; rfl⟩
  | error e => rw [hd] at hl; cases hl

theorem listAll_nil : Storage.listAll ⟨[]⟩ = .ok [] := by
  simp [Storage.listAll, decodeAll, List.mergeSort_nil]

theorem listAll_singleton (k : String) (x : StoredSummary) :
    Storage.listAll ⟨[(k, x.toJson)]⟩ = .ok [x] := by
  simp [Storage.listAll, decodeAll, storedSummary_fromJson_toJson,
    List.mergeSort_singleton]

theorem head_eq_of_pairwise_max {x hd : StoredSummary}
    {tl : List StoredSummary}
    (hpw : (hd :: tl).Pairwise (fun a b => descLe a b = true))
    (hx : x ∈ hd :: tl)
    (hmax : ∀ y ∈ hd :: tl, y ≠ x → y.created_at < x.created_at) :
    hd = x := by
  by_cases h : hd = x
  · exact h
  · exfalso
    have hxtl : x ∈ tl := by
      rcases List.mem_cons.mp hx with h' | h'
      · exact absurd h'.symm h
      · exact h'
    have h1 : descLe hd x = true := (List.pairwise_cons.mp hpw).1 x hxtl
    have h2 : hd.created_at < x.created_at :=
      hmax hd (List.mem_cons_self _ _) h
    simp only [descLe, decide_eq_true_eq] at h1
    omega

/-! ### Claim theorems -/

/-- Claim C3: for every URL `u` and record `r`, `put(u, r)` followed by
`get(u)` returns `Some` of a stored record whose `url` equals `u` and whose
summary fields all equal those of `r` (serialize-then-deserialize
round-trip).  `h` is the key-derivation function and `t` the timestamp taken
at the call. -/
theorem put_then_get_roundtrip (h : String → String) (st : Storage)
    (u : String) (r : Summary) (t : Nat) :
    Storage.get h (Storage.store h st u r t) u = .ok (some ⟨u, t, r⟩) :=
  get_store_eq h st u r t

/-- Claim C7: after `put(u, r)`, `delete(u)` returns `true` and a subsequent
`get(u)` returns `none`; and deleting a URL whose derived key is absent from
the store (never stored, not hash-colliding) returns `false` and leaves the
store unchanged, without error. -/
theorem delete_after_put_and_never_stored (h : String → String) (st : Storage)
    (u : String) (r : Summary) (t : Nat) :
    ((Storage.store h st u r t).delete h u).2 = true ∧
    Storage.get h ((Storage.store h st u r t).delete h u).1 u = .ok none ∧
    (h u ∉ st.entries.map Prod.fst →
      (st.delete h u).2 = false ∧ (st.delete h u).1 = st) := by
  refine ⟨?_, ?_, ?_⟩
  · simp [Storage.delete, Storage.store, lookup_insertEntry]
  · simp [Storage.get, Storage.delete, Storage.store, lookup_filter_ne]
  · intro hmiss
    have hnone := lookup_eq_none_of_not_mem hmiss
    constructor
    · simp [Storage.delete, hnone]
    · simp [Storage.delete, filter_ne_of_lookup_none hnone]

/-- Witness for C7 at a concrete input: the identity key derivation, the
empty store, URL `"u"`. -/
theorem delete_after_put_and_never_stored_witness :
    ((Storage.store (fun s => s) ⟨[]⟩ "u" ⟨"t", "c", [], [], []⟩ 0).delete
        (fun s => s) "u").2 = true ∧
    Storage.get (fun s => s)
        ((Storage.store (fun s => s) ⟨[]⟩ "u" ⟨"t", "c", [], [], []⟩ 0).delete
          (fun s => s) "u").1 "u" = .ok none ∧
    ((⟨[]⟩ : Storage).delete (fun s => s) "u").2 = false := by
  have h := delete_after_put_and_never_stored (fun s => s) ⟨[]⟩ "u"
    ⟨"t", "c", [], [], []⟩ 0
  exact ⟨h.1, h.2.1, (h.2.2 (by simp)).1⟩

/-- Claim C10: a store containing a value that does not deserialize makes
`list_all` fail outright with a serialization error — no partial list — and
the degraded-mode linear scan `simple_search` fails with it. -/
theorem corrupt_entry_fails_list_all (st : Storage) (q : String)
    (kv : String × Json) (hmem : kv ∈ st.entries)
    (hbad : StoredSummary.fromJson kv.2 = none) :
    st.listAll = .error .serializationError ∧
    simpleSearch st q = .error .serializationError := by
  have hd := decodeAll_error_of_mem hmem hbad
  constructor
  · simp [Storage.listAll, hd]
  · simp [simpleSearch, Storage.listAll, hd]

/-- Witness for C10 at a concrete input: a store whose single value is the
Json number `0`, which does not decode to a stored record. -/
theorem corrupt_entry_fails_list_all_witness :
    Storage.listAll ⟨[("k", Json.num 0)]⟩ = .error .serializationError ∧
    simpleSearch ⟨[("k", Json.num 0)]⟩ "q" = .error .serializationError :=
  corrupt_entry_fails_list_all ⟨[("k", Json.num 0)]⟩ "q" ("k", Json.num 0)
    (by simp) rfl

/-- A summary with empty `key_points`, `entities` and `action_items` but a
non-empty `conclusion`. -/
def conclusionOnlySummary : Summary :=
  ⟨"t", "c", [], [], []⟩

/-- Counterexample to claim C8 as stated: `conclusionOnlySummary` has all of
`key_points`, `entities`, `action_items` empty, yet `is_empty` returns
`false`, because the code also requires the `conclusion` to be empty. -/
theorem is_empty_not_iff_lists_empty :
    ¬ (conclusionOnlySummary.isEmpty = true ↔
      (conclusionOnlySummary.key_points = [] ∧
       conclusionOnlySummary.entities = [] ∧
       conclusionOnlySummary.action_items = [])) := by
  decide

/-- Claim C8 amended: a record's `is_empty` predicate holds exactly when the
`conclusion` is the empty string and all of `key_points`, `entities`,
`action_items` are empty sequences. -/
theorem is_empty_iff_all_content_empty (s : Summary) :
    s.isEmpty = true ↔
      (s.conclusion = "" ∧ s.key_points = [] ∧ s.entities = [] ∧
        s.action_items = []) := by
  simp only [Summary.isEmpty, Bool.and_eq_true, String.isEmpty_iff,
    List.isEmpty_iff]
  tauto

/-- The URL of the C1 counterexample scenario: its analyzed `url` field
tokenizes to `["https", "a"]`, which does not contain the raw string. -/
def dupUrl : String := "https://a"

/-- First indexed version of the record at `dupUrl`. -/
def firstVersionSummary : Summary :=
  ⟨"Rust Ownership", "", [], [], []⟩

/-- Second indexed version of the record at `dupUrl`. -/
def secondVersionSummary : Summary :=
  ⟨"Rust Borrowing", "", [], [], []⟩

/-- The index after `index_summary(dupUrl, r1)` then
`index_summary(dupUrl, r2)` starting from an empty index. -/
def reindexedTwice : SearchIndexState :=
  indexSummary (indexSummary ⟨[]⟩ dupUrl firstVersionSummary) dupUrl
    secondVersionSummary

/-- Claim C1 fails on the code: the `url` field is declared `TEXT`
(analyzed), so `delete_term` with the raw string `"https://a"` matches no
token of the previously indexed document and deletes nothing.  After
re-indexing the same URL the index holds two documents with that stored url,
and a search whose query (`"Rust"`) matches the second record returns the
url twice. -/
theorem reindex_url_leaves_duplicate_document :
    ((reindexedTwice.docs.filter (fun d => d.urlStored == dupUrl)).length = 2)
    ∧ (searchModel reindexedTwice "Rust" 20).count dupUrl = 2 := by
  decide

/-- Claim C2: the `Search` command returns the index result unchanged when
the index opened and returned a non-empty list; in every other outcome
(open failed, search failed, search returned the empty list) it returns the
`simple_search` linear scan, whose result is exactly the urls of the stored
records whose title, conclusion, some key point or some entity contains the
query case-insensitively, in `list_all`'s order — which is sorted by
creation time descending. -/
theorem resolve_query_fallback_policy (st : Storage) (q : String)
    (e : SearchError) (urls : List String) (l : List StoredSummary) :
    resolveQuery st q none = simpleSearch st q ∧
    resolveQuery st q (some (.error e)) = simpleSearch st q ∧
    resolveQuery st q (some (.ok [])) = simpleSearch st q ∧
    (urls ≠ [] → resolveQuery st q (some (.ok urls)) = .ok urls) ∧
    (st.listAll = .ok l →
      simpleSearch st q = .ok ((l.filter (fun stored =>
          summaryMatches stored.summary (lowerStr q))).map
        (fun stored => stored.url)) ∧
      l.Pairwise (fun a b => b.created_at ≤ a.created_at)) := by
  refine ⟨rfl, rfl, rfl, ?_, ?_⟩
  · intro hne
    have : urls.isEmpty = false := by
      simpa [List.isEmpty_iff] using hne
    simp [resolveQuery, this]
  · intro hl
    constructor
    · simp [simpleSearch, hl]
    · rcases listAll_ok_cases hl with ⟨l₀, _, hsort⟩
      rw [hsort]
      exact pairwise_mergeSort_descLe l₀

/-- Witness for C2 at concrete inputs: a non-empty index result is returned
unchanged, and on the empty store the fallback scan returns the empty
list. -/
theorem resolve_query_fallback_policy_witness :
    resolveQuery ⟨[]⟩ "kubernetes" (some (.ok ["u"])) = .ok ["u"] ∧
    simpleSearch ⟨[]⟩ "kubernetes" = .ok [] := by
  have h := resolve_query_fallback_policy ⟨[]⟩ "kubernetes"
    SearchError.queryError ["u"] []
  refine ⟨h.2.2.2.1 (by decide), ?_⟩
  have h5 := (h.2.2.2.2 listAll_nil).1
  simpa using h5

/-- Claim C5: `put(u, r₁)` then `put(u, r₂)` fully replaces the first
record — `list_all`'s count does not grow compared to a single put, and
`get(u)` returns only the fields of `r₂`.  The two puts derive the same key
because the key derivation `h` is a function of the url string. -/
theorem reput_same_url_overwrites (h : String → String) (st : Storage)
    (u : String) (r₁ r₂ : Summary) (t₁ t₂ : Nat)
    (l₁ l₂ : List StoredSummary)
    (h₁ : (Storage.store h st u r₁ t₁).listAll = .ok l₁)
    (h₂ : (Storage.store h (Storage.store h st u r₁ t₁) u r₂ t₂).listAll
      = .ok l₂) :
    l₂.length = l₁.length ∧
    Storage.get h (Storage.store h (Storage.store h st u r₁ t₁) u r₂ t₂) u
      = .ok (some ⟨u, t₂, r₂⟩) := by
  refine ⟨?_, get_store_eq h (Storage.store h st u r₁ t₁) u r₂ t₂⟩
  rcases listAll_ok_cases h₁ with ⟨d₁, hd₁, hl₁⟩
  rcases listAll_ok_cases h₂ with ⟨d₂, hd₂, hl₂⟩
  have e₁ : (Storage.store h st u r₁ t₁).entries
      = insertEntry st.entries (h u) (StoredSummary.toJson ⟨u, t₁, r₁⟩) := rfl
  have e₂ : (Storage.store h (Storage.store h st u r₁ t₁) u r₂ t₂).entries
      = insertEntry st.entries (h u) (StoredSummary.toJson ⟨u, t₂, r₂⟩) :=
    insertEntry_insertEntry st.entries (h u) _ _
  rw [e₁] at hd₁
  rw [e₂] at hd₂
  subst hl₁ hl₂
  simp only [List.length_mergeSort]
  rw [decodeAll_length hd₂, decodeAll_length hd₁]
  exact length_insertEntry st.entries (h u) _ _

/-- Witness for C5 at concrete inputs: the identity key derivation, the
empty store, two versions of the record at url `"u"`. -/
theorem reput_same_url_overwrites_witness :
    ([(⟨"u", 1, ⟨"t2", "c2", [], [], []⟩⟩ : StoredSummary)]).length
      = ([(⟨"u", 0, ⟨"t1", "c1", [], [], []⟩⟩ : StoredSummary)]).length ∧
    Storage.get (fun s => s)
        (Storage.store (fun s => s)
          (Storage.store (fun s => s) ⟨[]⟩ "u" ⟨"t1", "c1", [], [], []⟩ 0)
          "u" ⟨"t2", "c2", [], [], []⟩ 1) "u"
      = .ok (some ⟨"u", 1, ⟨"t2", "c2", [], [], []⟩⟩) := by
  apply reput_same_url_overwrites (fun s => s) ⟨[]⟩ "u"
    ⟨"t1", "c1", [], [], []⟩ ⟨"t2", "c2", [], [], []⟩ 0 1
  · exact listAll_singleton "u" ⟨"u", 0, ⟨"t1", "c1", [], [], []⟩⟩
  · have hst : Storage.store (fun s => s)
        (Storage.store (fun s => s) ⟨[]⟩ "u" ⟨"t1", "c1", [], [], []⟩ 0)
        "u" ⟨"t2", "c2", [], [], []⟩ 1
        = ⟨[("u", StoredSummary.toJson
            ⟨"u", 1, ⟨"t2", "c2", [], [], []⟩⟩)]⟩ := by
      simp [Storage.store, insertEntry, String.lt_irrefl]
    rw [hst]
    exact listAll_singleton "u" ⟨"u", 1, ⟨"t2", "c2", [], [], []⟩⟩

/-- Claim C6: `list_all` returns the decoded records sorted by creation time
descending; the sort is the stable `mergeSort` of the underlying iteration
order, so the result is a permutation of the decoded entries and records
with equal timestamps keep their underlying relative order. -/
theorem list_all_sorted_desc_stable (st : Storage) (l : List StoredSummary)
    (hl : st.listAll = .ok l) :
    ∃ l₀, decodeAll st.entries = .ok l₀ ∧ l = l₀.mergeSort descLe ∧
      l.Pairwise (fun a b => b.created_at ≤ a.created_at) ∧
      List.Perm l l₀ ∧
      (∀ t, l.filter (fun s => s.created_at == t)
        = l₀.filter (fun s => s.created_at == t)) := by
  rcases listAll_ok_cases hl with ⟨l₀, hd, hsort⟩
  subst hsort
  exact ⟨l₀, hd, rfl, pairwise_mergeSort_descLe l₀,
    List.mergeSort_perm l₀ descLe, fun t => filter_created_at_mergeSort l₀ t⟩

/-- Witness for C6 at a concrete input: a store holding one record. -/
theorem list_all_sorted_desc_stable_witness :
    ∃ l₀, decodeAll (Storage.mk
        [("k", StoredSummary.toJson ⟨"u", 5, ⟨"t", "c", [], [], []⟩⟩)]).entries
        = .ok l₀ ∧
      [(⟨"u", 5, ⟨"t", "c", [], [], []⟩⟩ : StoredSummary)]
        = l₀.mergeSort descLe ∧
      ([(⟨"u", 5, ⟨"t", "c", [], [], []⟩⟩ : StoredSummary)]).Pairwise
        (fun a b => b.created_at ≤ a.created_at) ∧
      List.Perm [(⟨"u", 5, ⟨"t", "c", [], [], []⟩⟩ : StoredSummary)] l₀ ∧
      (∀ t, ([(⟨"u", 5, ⟨"t", "c", [], [], []⟩⟩ : StoredSummary)]).filter
          (fun s => s.created_at == t)
        = l₀.filter (fun s => s.created_at == t)) :=
  list_all_sorted_desc_stable
    ⟨[("k", StoredSummary.toJson ⟨"u", 5, ⟨"t", "c", [], [], []⟩⟩)]⟩
    [⟨"u", 5, ⟨"t", "c", [], [], []⟩⟩]
    (listAll_singleton "k" ⟨"u", 5, ⟨"t", "c", [], [], []⟩⟩)

/-- Claim C9: `store` stamps the persisted record with the timestamp taken
at the call; when that timestamp is newer than every record already in the
store (the clock advanced), the re-stored record's creation time is reset to
it and the record moves to the front of `list_all`'s newest-first order. -/
theorem store_stamps_fresh_time_and_fronts_list (h : String → String)
    (st : Storage) (u : String) (r : Summary) (t : Nat)
    (hfresh : ∀ kv ∈ st.entries, ∃ s, StoredSummary.fromJson kv.2 = some s
      ∧ s.created_at < t) :
    Storage.get h (Storage.store h st u r t) u = .ok (some ⟨u, t, r⟩) ∧
    ∃ l, (Storage.store h st u r t).listAll = .ok l ∧
      l.head? = some ⟨u, t, r⟩ := by
  refine ⟨get_store_eq h st u r t, ?_⟩
  have hdec : ∀ kv ∈ insertEntry st.entries (h u)
      (StoredSummary.toJson ⟨u, t, r⟩),
      (StoredSummary.fromJson kv.2).isSome := by
    intro kv hkv
    rcases mem_insertEntry hkv with hkv' | hkv'
    · rw [hkv']
      simp [storedSummary_fromJson_toJson]
    · rcases hfresh kv hkv' with ⟨s, hs, _⟩
      simp [hs]
  rcases decodeAll_isOk hdec with ⟨l₀, hl₀⟩
  have hxl : (⟨u, t, r⟩ : StoredSummary) ∈ l₀ :=
    mem_decodeAll hl₀
      (self_mem_insertEntry st.entries (h u)
        (StoredSummary.toJson ⟨u, t, r⟩))
      (storedSummary_fromJson_toJson ⟨u, t, r⟩)
  have hmax : ∀ y ∈ l₀, y ≠ (⟨u, t, r⟩ : StoredSummary) →
      y.created_at < (⟨u, t, r⟩ : StoredSummary).created_at := by
    intro y hy hne
    rcases decodeAll_mem hl₀ hy with ⟨kv, hkv, hdecy⟩
    rcases mem_insertEntry hkv with hkv' | hkv'
    · rw [hkv'] at hdecy
      rw [storedSummary_fromJson_toJson] at hdecy
      cases hdecy
      exact absurd rfl hne
    · rcases hfresh kv hkv' with ⟨s, hs, hlt⟩
      rw [hs] at hdecy
      cases hdecy
      exact hlt
  refine ⟨l₀.mergeSort descLe, ?_, ?_⟩
  · unfold Storage.listAll
    have hentries : (Storage.store h st u r t).entries
        = insertEntry st.entries (h u) (StoredSummary.toJson ⟨u, t, r⟩) := rfl
    rw [hentries, hl₀]
  · have hx' : (⟨u, t, r⟩ : StoredSummary) ∈ l₀.mergeSort descLe :=
      List.mem_mergeSort.mpr hxl
    cases hms : l₀.mergeSort descLe with
    | nil => rw [hms] at hx'; cases hx'
    | cons hd tl =>
      have hpw : (hd :: tl).Pairwise (fun a b => descLe a b = true) := by
        rw [← hms]
        exact List.sorted_mergeSort descLe_trans descLe_total l₀
      rw [hms] at hx'
      have hmax' : ∀ y ∈ hd :: tl, y ≠ (⟨u, t, r⟩ : StoredSummary) →
          y.created_at < (⟨u, t, r⟩ : StoredSummary).created_at := by
        intro y hy
        apply hmax
        have : y ∈ l₀.mergeSort descLe := by rw [hms]; exact hy
        exact List.mem_mergeSort.mp this
      have hhd : hd = ⟨u, t, r⟩ := head_eq_of_pairwise_max hpw hx' hmax'
      simp [hhd]

/-- Witness for C9 at a concrete input: the identity key derivation, the
empty store (so the freshness hypothesis is vacuous), timestamp 3. -/
theorem store_stamps_fresh_time_and_fronts_list_witness :
    Storage.get (fun s => s)
        (Storage.store (fun s => s) ⟨[]⟩ "u" ⟨"t", "c", [], [], []⟩ 3) "u"
      = .ok (some ⟨"u", 3, ⟨"t", "c", [], [], []⟩⟩) ∧
    ∃ l, (Storage.store (fun s => s) ⟨[]⟩ "u" ⟨"t", "c", [], [], []⟩ 3).listAll
        = .ok l ∧ l.head? = some ⟨"u", 3, ⟨"t", "c", [], [], []⟩⟩ :=
  store_stamps_fresh_time_and_fronts_list (fun s => s) ⟨[]⟩ "u"
    ⟨"t", "c", [], [], []⟩ 3 (by simp)

end Summa
